import Mathlib

/-!
Verification of the skill-hub discovery/sync core against its design document.

The Python sources are shallow-embedded as executable Lean definitions:

* `validate_skill_name` / `validate_description` embed
  `src/skill_hub/utils/path_utils.py`;
* `SkillRegistry.add_skill` and the registry queries embed
  `src/skill_hub/discovery/engine.py`;
* `parse_skill_file` and `parse_skill_file_from_path` embed
  `src/skill_hub/utils/yaml_parser.py` (YAML decoding itself is abstracted as a
  `yamlLoad` oracle producing a `YamlValue`);
* `sync_skill_to_hub`, `list_hub_skills` and `push_to_agents` embed
  `src/skill_hub/sync/engine.py`, over an explicit file-system state.

Machine integers do not occur; timestamps are modeled as `Nat`.  SHA-256
(`compute_checksum` in `path_utils.py`) is abstracted as a string-valued
parameter `cs : String → String`, since every use in the sources compares
checksums for equality only.
-/

/-! ### Name and description validation (`utils/path_utils.py`) -/

/-- Character class `[a-z0-9]` of the skill-name pattern. -/
def isLowerAlnum (c : Char) : Bool :=
  ('a' ≤ c && c ≤ 'z') || ('0' ≤ c && c ≤ '9')

/-- One transition of a deterministic automaton for
`[a-z0-9]+(-[a-z0-9]+)*`: `none` is the dead state, `some false` expects the
first character of an alphanumeric block, `some true` is inside a block. -/
def nameDFAStep (st : Option Bool) (c : Char) : Option Bool :=
  match st with
  | none => none
  | some false => if isLowerAlnum c then some true else none
  | some true =>
    if isLowerAlnum c then some true
    else if c = '-' then some false else none

/-- Whether a character list is in the language of `[a-z0-9]+(-[a-z0-9]+)*`. -/
def nameDFA (l : List Char) : Bool :=
  l.foldl nameDFAStep (some false) == some true

/-- Truthiness of `re.match(r"^[a-z0-9]+(-[a-z0-9]+)*$", s)` in Python.
Without `re.MULTILINE`, `$` matches at the end of the string or just before a
newline that ends the string, so the pattern also accepts a string that is a
match followed by one trailing newline. -/
def reMatchesNamePattern (s : String) : Bool :=
  nameDFA s.data || (s.data.getLast? == some '\n' && nameDFA s.data.dropLast)

/-- `validate_skill_name` from `utils/path_utils.py`:
`bool(re.match(pattern, name)) and 1 <= len(name) <= 64`. -/
def validate_skill_name (name : String) : Bool :=
  reMatchesNamePattern name && (1 ≤ name.length && name.length ≤ 64)

/-- `validate_description` from `utils/path_utils.py`:
`1 <= len(description) <= 1024`. -/
def validate_description (description : String) : Bool :=
  1 ≤ description.length && description.length ≤ 1024

/-- Membership in the regular language `[a-z0-9]+(-[a-z0-9]+)*`, transcribed
from the pattern the specification states: one nonempty lowercase-alphanumeric
block, then any number of hyphen-preceded nonempty blocks. -/
inductive NamePat : List Char → Prop where
  | single (run : List Char) (hne : run ≠ [])
      (hall : ∀ c ∈ run, isLowerAlnum c = true) : NamePat run
  | more (run rest : List Char) (hne : run ≠ [])
      (hall : ∀ c ∈ run, isLowerAlnum c = true)
      (h : NamePat rest) : NamePat (run ++ '-' :: rest)

lemma nameDFA_foldl_none (l : List Char) :
    l.foldl nameDFAStep none = none := by
  induction l with
  | nil => rfl
  | cons c t ih => simpa [nameDFAStep] using ih

lemma nameDFA_foldl_true (l : List Char)
    (h : ∀ c ∈ l, isLowerAlnum c = true) :
    l.foldl nameDFAStep (some true) = some true := by
  induction l with
  | nil => rfl
  | cons c t ih =>
    have hc := h c (by simp)
    simp only [List.foldl_cons, nameDFAStep, hc, if_true]
    exact ih fun x hx => h x (by simp [hx])

lemma nameDFA_foldl_run (l : List Char) (hne : l ≠ [])
    (h : ∀ c ∈ l, isLowerAlnum c = true) :
    l.foldl nameDFAStep (some false) = some true := by
  cases l with
  | nil => exact absurd rfl hne
  | cons c t =>
    have hc := h c (by simp)
    simp only [List.foldl_cons, nameDFAStep, hc, if_true]
    exact nameDFA_foldl_true t fun x hx => h x (by simp [hx])

lemma nameDFA_of_namePat {l : List Char} (h : NamePat l) : nameDFA l = true := by
  induction h with
  | single run hne hall =>
    simp [nameDFA, nameDFA_foldl_run run hne hall]
  | more run rest hne hall _ ih =>
    have hrun := nameDFA_foldl_run run hne hall
    have hrest : rest.foldl nameDFAStep (some false) = some true := by
      simpa [nameDFA] using ih
    have hd : isLowerAlnum '-' = false := by decide
    simp [nameDFA, List.foldl_append, List.foldl_cons, hrun, nameDFAStep, hd,
      hrest]

lemma dropWhile_head_false {p : Char → Bool} :
    ∀ {l : List Char} {x : Char} {xs : List Char},
      l.dropWhile p = x :: xs → p x = false := by
  intro l
  induction l with
  | nil => intro x xs h; simp at h
  | cons c t ih =>
    intro x xs h
    cases hc : p c with
    | true =>
      rw [List.dropWhile_cons, if_pos hc] at h
      exact ih h
    | false =>
      rw [List.dropWhile_cons, if_neg (by simp [hc])] at h
      injection h with h1 _
      rw [← h1]
      exact hc

lemma namePat_of_nameDFA_aux :
    ∀ n (l : List Char), l.length ≤ n →
      l.foldl nameDFAStep (some false) = some true → NamePat l := by
  intro n
  induction n with
  | zero =>
    intro l hl h
    have : l = [] := List.length_eq_zero.mp (Nat.le_zero.mp hl)
    subst this
    simp at h
  | succ n ih =>
    intro l hl h
    have hsplit : l.takeWhile isLowerAlnum ++ l.dropWhile isLowerAlnum = l :=
      List.takeWhile_append_dropWhile isLowerAlnum l
    have hallrun : ∀ c ∈ l.takeWhile isLowerAlnum, isLowerAlnum c = true :=
      fun c hc => List.mem_takeWhile_imp hc
    have hne : l.takeWhile isLowerAlnum ≠ [] := by
      intro hnil
      cases l with
      | nil => simp at h
      | cons c t =>
        cases hcl : isLowerAlnum c with
        | true =>
          rw [List.takeWhile_cons, if_pos hcl] at hnil
          simp at hnil
        | false =>
          have hstep : nameDFAStep (some false) c = none := by
            simp [nameDFAStep, hcl]
          rw [List.foldl_cons, hstep, nameDFA_foldl_none] at h
          simp at h
    have hfold :
        (l.dropWhile isLowerAlnum).foldl nameDFAStep (some true) = some true := by
      rw [← hsplit, List.foldl_append, nameDFA_foldl_run _ hne hallrun] at h
      exact h
    cases htlc : l.dropWhile isLowerAlnum with
    | nil =>
      have hl2 : l.takeWhile isLowerAlnum = l := by
        conv_rhs => rw [← hsplit]
        rw [htlc, List.append_nil]
      have hout := NamePat.single _ hne hallrun
      rwa [hl2] at hout
    | cons c rest =>
      have hcfalse : isLowerAlnum c = false := dropWhile_head_false htlc
      rw [htlc] at hfold
      have hstep : nameDFAStep (some true) c =
          if c = '-' then some false else none := by
        simp [nameDFAStep, hcfalse]
      by_cases hdash : c = '-'
      · subst hdash
        rw [List.foldl_cons, hstep, if_pos rfl] at hfold
        have hlen : rest.length ≤ n := by
          have h1 := congrArg List.length hsplit
          rw [List.length_append, htlc] at h1
          have h2 : 0 < (l.takeWhile isLowerAlnum).length :=
            List.length_pos.mpr hne
          simp only [List.length_cons] at h1
          omega
        have hrest := ih rest hlen hfold
        have hl2 : l.takeWhile isLowerAlnum ++ '-' :: rest = l := by
          conv_rhs => rw [← hsplit]
          rw [htlc]
        have hout := NamePat.more _ _ hne hallrun hrest
        rwa [hl2] at hout
      · rw [List.foldl_cons, hstep, if_neg hdash, nameDFA_foldl_none] at hfold
        simp at hfold

lemma namePat_iff_nameDFA (l : List Char) : NamePat l ↔ nameDFA l = true := by
  constructor
  · exact nameDFA_of_namePat
  · intro h
    exact namePat_of_nameDFA_aux l.length l le_rfl (by simpa [nameDFA] using h)

set_option maxRecDepth 40000 in
/-- Claim C6 (amended): `validate_skill_name` returns true exactly for strings
that match `^[a-z0-9]+(-[a-z0-9]+)*$` **or** are such a match followed by a
single trailing newline (Python's `$` also matches just before a newline that
ends the string), with total length 1–64; `validate_description` returns true
exactly for strings of length 1–1024; and every example the specification
lists behaves as it states. -/
theorem c6_validators_characterization :
    (∀ s : String, validate_skill_name s = true ↔
       ((NamePat s.data ∨
           (s.data.getLast? = some '\n' ∧ NamePat s.data.dropLast)) ∧
         1 ≤ s.length ∧ s.length ≤ 64))
    ∧ (∀ s : String, validate_description s = true ↔
         1 ≤ s.length ∧ s.length ≤ 1024)
    ∧ validate_skill_name "git-release" = true
    ∧ validate_skill_name "a1-b2-c3" = true
    ∧ validate_skill_name "Git-Release" = false
    ∧ validate_skill_name "git_release" = false
    ∧ validate_skill_name "-git-release" = false
    ∧ validate_skill_name "git-release-" = false
    ∧ validate_skill_name "git--release" = false
    ∧ validate_skill_name "" = false
    ∧ validate_skill_name (String.mk (List.replicate 65 'a')) = false
    ∧ validate_description "A" = true
    ∧ validate_description (String.mk (List.replicate 1024 'x')) = true
    ∧ validate_description "" = false
    ∧ validate_description (String.mk (List.replicate 1025 'x')) = false := by
  refine ⟨?_, ?_, ?_⟩
  · intro s
    simp only [validate_skill_name, reMatchesNamePattern, Bool.and_eq_true,
      Bool.or_eq_true, decide_eq_true_eq, beq_iff_eq,
      namePat_iff_nameDFA]
  · intro s
    simp [validate_description]
  · decide

/-- Claim C6 as stated is false: Python's `re` accepts a trailing newline via
`$`, so `validate_skill_name "git-release\n"` returns true although
`"git-release\n"` does not match `^[a-z0-9]+(-[a-z0-9]+)*$`. -/
theorem c6_counterexample :
    validate_skill_name "git-release\n" = true
      ∧ ¬ NamePat ("git-release\n").data := by
  constructor
  · decide
  · intro h
    have hd := nameDFA_of_namePat h
    exact absurd hd (by decide)

/-! ### Data model (`models.py`) -/

/-- Result of Python's `yaml.safe_load`, as far as the code inspects it.
Floats and non-string mapping keys are not modeled: the code only ever looks
up string keys, and no claim involves floats.  A Python `None` obtained from
`dict.get` is represented by `Option.none` at the use sites. -/
inductive YamlValue where
  | null
  | bool (b : Bool)
  | int (n : Int)
  | str (s : String)
  | list (xs : List YamlValue)
  | map (pairs : List (String × YamlValue))

/-- `SkillSource` dataclass: provenance of one discovered occurrence.
`discovered_at` (a `datetime` in the source) is modeled as a `Nat` tick;
`path` (a `pathlib.Path`) as its string form. -/
structure SkillSource where
  path : String
  agent : String
  discovered_at : Nat
deriving DecidableEq

/-- `SkillMetadata` dataclass.  The source annotates `license` and
`compatibility` as `Optional[str]` but stores whatever YAML value was present
without checking, so they are modeled as `Option YamlValue`. -/
structure SkillMetadata where
  name : String
  description : String
  license : Option YamlValue := none
  compatibility : Option YamlValue := none
  metadata : Option (List (String × String)) := none

/-- `Skill` dataclass. -/
structure Skill where
  metadata : SkillMetadata
  content : String
  sources : List SkillSource := []
  checksum : Option String := none
  last_sync_at : Option Nat := none

/-- The `Skill.name` property. -/
def Skill.name (sk : Skill) : String := sk.metadata.name

/-! ### Skill registry (`discovery/engine.py`)

`self.skills` is an insertion-ordered dict, modeled as an association list.
In the source, `add_skill` runs `existing.sources.append(source)` and, on the
first divergence, `self.duplicates[name] = existing.sources` — which stores a
reference to the *same* list object, so from then on the duplicates entry and
the skill's source list are one list; the later
`self.duplicates[name].append(source)` therefore appends to that shared list a
second time.  The registry is modeled accordingly: a single source list per
skill plus `dupNames`, the set of keys present in `self.duplicates`; the
duplicates entry for `name` is the skill's source list whenever
`name ∈ dupNames`. -/

structure SkillRegistry where
  skills : List (String × Skill)
  dupNames : List String

/-- `SkillRegistry.__init__`. -/
def SkillRegistry.init : SkillRegistry := ⟨[], []⟩

/-- Dict lookup `self.skills[name]` / `self.skills.get(name)`. -/
def lookupName (skills : List (String × Skill)) (name : String) : Option Skill :=
  (skills.find? (fun p => p.1 == name)).map (·.2)

/-- Replacing the source list of the entry stored under `name` (the in-place
mutation `existing.sources.append(...)` of the source). -/
def setSkillSources (skills : List (String × Skill)) (name : String)
    (srcs : List SkillSource) : List (String × Skill) :=
  skills.map (fun p => if p.1 == name then (p.1, { p.2 with sources := srcs }) else p)

/-- `SkillRegistry.add_skill`.  `cs` stands for `compute_checksum` (SHA-256 in
`utils/path_utils.py`), abstracted since only checksum equality is ever used. -/
def SkillRegistry.add_skill (cs : String → String) (reg : SkillRegistry)
    (metadata : SkillMetadata) (content : String) (source : SkillSource) :
    SkillRegistry :=
  let name := metadata.name
  let checksum := cs content
  match lookupName reg.skills name with
  | some existing =>
    -- `existing.sources.append(source)` happens first in the source; the
    -- branches below add it to the shared list once, and a second time when
    -- `self.duplicates[name].append(source)` hits the aliased list.
    if existing.checksum ≠ some checksum then
      if reg.dupNames.contains name then
        { reg with skills :=
            setSkillSources reg.skills name (existing.sources ++ [source, source]) }
      else
        { skills := setSkillSources reg.skills name (existing.sources ++ [source]),
          dupNames := reg.dupNames ++ [name] }
    else
      { reg with skills :=
          setSkillSources reg.skills name (existing.sources ++ [source]) }
  | none =>
    { reg with skills := reg.skills ++
        [(name, { metadata := metadata, content := content,
                  sources := [source], checksum := some checksum })] }

/-- `SkillRegistry.get_skill`. -/
def SkillRegistry.get_skill (reg : SkillRegistry) (name : String) : Option Skill :=
  lookupName reg.skills name

/-- `SkillRegistry.list_skills`. -/
def SkillRegistry.list_skills (reg : SkillRegistry) : List String :=
  reg.skills.map (·.1)

/-- `SkillRegistry.has_duplicates`: `len(self.duplicates) > 0`. -/
def SkillRegistry.has_duplicates (reg : SkillRegistry) : Bool :=
  decide (0 < reg.dupNames.length)

/-- The entry `self.duplicates[name]` (as `dict.get`): present exactly when
`name` is a key of `duplicates`, in which case it is the very list object the
skill's `sources` field holds (see the aliasing note above). -/
def SkillRegistry.duplicatesEntry (reg : SkillRegistry) (name : String) :
    Option (List SkillSource) :=
  if reg.dupNames.contains name then (lookupName reg.skills name).map (·.sources)
  else none

/-- One `add_skill` invocation, for reasoning about call sequences. -/
structure RegCall where
  meta : SkillMetadata
  content : String
  source : SkillSource

/-- A sequence of `add_skill` calls against a starting registry. -/
def runCalls (cs : String → String) (reg : SkillRegistry) (calls : List RegCall) :
    SkillRegistry :=
  calls.foldl (fun r c => r.add_skill cs c.meta c.content c.source) reg

lemma runCalls_cons (cs : String → String) (reg : SkillRegistry) (c : RegCall)
    (rest : List RegCall) :
    runCalls cs reg (c :: rest) =
      runCalls cs (reg.add_skill cs c.meta c.content c.source) rest := rfl

/-- The source list produced by a run of same-named calls against a stored
checksum `k0`: each call contributes its source once, except that a divergent
call made after divergence has already been recorded contributes it twice
(once from `existing.sources.append`, once from the aliased
`duplicates[name].append`). -/
def expectedSources (cs : String → String) (k0 : Option String) :
    Bool → List RegCall → List SkillSource
  | _, [] => []
  | divSeen, c :: rest =>
    if k0 ≠ some (cs c.content) then
      (if divSeen then [c.source, c.source] else [c.source])
        ++ expectedSources cs k0 true rest
    else
      c.source :: expectedSources cs k0 divSeen rest

/-- Whether some call's checksum differs from the stored checksum `k0`. -/
def anyDivergent (cs : String → String) (k0 : Option String)
    (calls : List RegCall) : Bool :=
  calls.any (fun c => decide (k0 ≠ some (cs c.content)))

lemma runCalls_single (cs : String → String) (n : String) :
    ∀ (calls : List RegCall) (sk : Skill) (divSeen : Bool),
      (∀ c ∈ calls, c.meta.name = n) →
      runCalls cs ⟨[(n, sk)], if divSeen then [n] else []⟩ calls =
        ⟨[(n, { sk with sources :=
            sk.sources ++ expectedSources cs sk.checksum divSeen calls })],
          if divSeen || anyDivergent cs sk.checksum calls then [n] else []⟩ := by
  intro calls
  induction calls with
  | nil =>
    intro sk divSeen _
    simp [runCalls, expectedSources, anyDivergent]
  | cons c rest ih =>
    intro sk divSeen hname
    have hn : c.meta.name = n := hname c (by simp)
    have hrest : ∀ x ∈ rest, x.meta.name = n := fun x hx => hname x (by simp [hx])
    rw [runCalls_cons]
    by_cases hd : sk.checksum = some (cs c.content)
    · -- equal checksums: append once, duplicates untouched
      have hadd : SkillRegistry.add_skill cs
          ⟨[(n, sk)], if divSeen then [n] else []⟩ c.meta c.content c.source =
          ⟨[(n, { sk with sources := sk.sources ++ [c.source] })],
            if divSeen then [n] else []⟩ := by
        simp [SkillRegistry.add_skill, lookupName, hn, hd, setSkillSources]
      rw [hadd, ih _ divSeen hrest]
      simp [expectedSources, anyDivergent, hd, List.append_assoc]
    · -- diverging checksum
      cases hds : divSeen with
      | false =>
        have hadd : SkillRegistry.add_skill cs
            ⟨[(n, sk)], if false then [n] else []⟩ c.meta c.content c.source =
            ⟨[(n, { sk with sources := sk.sources ++ [c.source] })], [n]⟩ := by
          simp [SkillRegistry.add_skill, lookupName, hn, hd, setSkillSources]
        rw [hadd]
        have hih := ih { sk with sources := sk.sources ++ [c.source] } true hrest
        simp only [if_pos] at hih
        rw [hih]
        simp [expectedSources, anyDivergent, hd, List.append_assoc]
      | true =>
        have hadd : SkillRegistry.add_skill cs
            ⟨[(n, sk)], if true then [n] else []⟩ c.meta c.content c.source =
            ⟨[(n, { sk with sources := sk.sources ++ [c.source, c.source] })],
              [n]⟩ := by
          simp [SkillRegistry.add_skill, lookupName, hn, hd, setSkillSources]
        rw [hadd]
        have hih := ih { sk with sources := sk.sources ++ [c.source, c.source] }
          true hrest
        simp only [if_pos] at hih
        rw [hih]
        simp [expectedSources, anyDivergent, hd, List.append_assoc]

lemma runCalls_fresh (cs : String → String) (n : String) (c0 : RegCall)
    (rest : List RegCall) (h0 : c0.meta.name = n)
    (hrest : ∀ c ∈ rest, c.meta.name = n) :
    runCalls cs ⟨[], []⟩ (c0 :: rest) =
      ⟨[(n, { metadata := c0.meta, content := c0.content,
              sources := c0.source ::
                expectedSources cs (some (cs c0.content)) false rest,
              checksum := some (cs c0.content) })],
        if anyDivergent cs (some (cs c0.content)) rest then [n] else []⟩ := by
  have hadd : SkillRegistry.add_skill cs ⟨[], []⟩ c0.meta c0.content c0.source =
      ⟨[(n, { metadata := c0.meta, content := c0.content,
              sources := [c0.source], checksum := some (cs c0.content) })],
        []⟩ := by
    simp [SkillRegistry.add_skill, lookupName, h0]
  rw [runCalls_cons, hadd]
  have hih := runCalls_single cs n rest
    { metadata := c0.meta, content := c0.content,
      sources := [c0.source], checksum := some (cs c0.content) } false hrest
  simp only [if_neg (by simp : ¬ (false = true))] at hih
  rw [hih]
  simp

lemma expectedSources_no_div (cs : String → String) (k0 : Option String) :
    ∀ (calls : List RegCall) (divSeen : Bool),
      (∀ c ∈ calls, some (cs c.content) = k0) →
      expectedSources cs k0 divSeen calls = calls.map (·.source) := by
  intro calls
  induction calls with
  | nil => intro divSeen _; simp [expectedSources]
  | cons c rest ih =>
    intro divSeen h
    have hc : some (cs c.content) = k0 := h c (by simp)
    simp [expectedSources, hc, ih divSeen fun x hx => h x (by simp [hx])]

lemma anyDivergent_eq_false (cs : String → String) (k0 : Option String)
    (calls : List RegCall) (h : ∀ c ∈ calls, some (cs c.content) = k0) :
    anyDivergent cs k0 calls = false := by
  simp only [anyDivergent, List.any_eq_false, decide_eq_true_eq]
  intro c hc
  simp [(h c hc).symm]

lemma anyDivergent_eq_true (cs : String → String) (k : String)
    (calls : List RegCall) (h : ∃ c ∈ calls, cs c.content ≠ k) :
    anyDivergent cs (some k) calls = true := by
  obtain ⟨c, hc, hne⟩ := h
  simp only [anyDivergent, List.any_eq_true, decide_eq_true_eq]
  exact ⟨c, hc, by simp [Ne.symm hne]⟩

lemma expectedSources_length_ge (cs : String → String) (k0 : Option String) :
    ∀ (calls : List RegCall) (divSeen : Bool),
      calls.length ≤ (expectedSources cs k0 divSeen calls).length := by
  intro calls
  induction calls with
  | nil => intro divSeen; simp [expectedSources]
  | cons c rest ih =>
    intro divSeen
    by_cases hd : k0 = some (cs c.content)
    · simpa [expectedSources, hd] using ih divSeen
    · have h1 := ih true
      cases divSeen <;> simp [expectedSources, hd] <;> omega

/-- Claim C1: for every sequence of `add_skill` calls on a fresh registry that
share one skill name and supply identical content (hence equal checksums), the
registry afterwards maps that name to exactly one `Skill` whose content and
checksum are those of the first call, whose sources list has one entry per
call in call order, and `has_duplicates()` returns false with no duplicates
entry for the name. -/
theorem c1_identical_content_merges (cs : String → String) (n content : String)
    (c0 : RegCall) (rest : List RegCall)
    (hname : ∀ c ∈ c0 :: rest, c.meta.name = n)
    (hcontent : ∀ c ∈ c0 :: rest, c.content = content) :
    (runCalls cs ⟨[], []⟩ (c0 :: rest)).skills =
        [(n, { metadata := c0.meta, content := content,
               sources := (c0 :: rest).map (·.source),
               checksum := some (cs content) })]
      ∧ (runCalls cs ⟨[], []⟩ (c0 :: rest)).has_duplicates = false
      ∧ (runCalls cs ⟨[], []⟩ (c0 :: rest)).duplicatesEntry n = none := by
  have h0 : c0.meta.name = n := hname c0 (by simp)
  have hrest : ∀ c ∈ rest, c.meta.name = n := fun c hc => hname c (by simp [hc])
  have hc0 : c0.content = content := hcontent c0 (by simp)
  have hcr : ∀ c ∈ rest, some (cs c.content) = some (cs c0.content) := by
    intro c hc
    rw [hcontent c (by simp [hc]), hc0]
  rw [runCalls_fresh cs n c0 rest h0 hrest,
    expectedSources_no_div cs _ rest false hcr,
    anyDivergent_eq_false cs _ rest hcr]
  refine ⟨?_, ?_, ?_⟩
  · simp [hc0]
  · simp [SkillRegistry.has_duplicates]
  · simp [SkillRegistry.duplicatesEntry]

/-- Witness for C1 at a concrete two-call run with identical content. -/
theorem c1_witness :
    (runCalls (fun s => s) ⟨[], []⟩
        [⟨⟨"git-release", "d", none, none, none⟩, "body", ⟨"p1", "cursor", 1⟩⟩,
         ⟨⟨"git-release", "d2", none, none, none⟩, "body", ⟨"p2", "claude", 2⟩⟩]).has_duplicates
      = false :=
  (c1_identical_content_merges (fun s => s) "git-release" "body"
      ⟨⟨"git-release", "d", none, none, none⟩, "body", ⟨"p1", "cursor", 1⟩⟩
      [⟨⟨"git-release", "d2", none, none, none⟩, "body", ⟨"p2", "claude", 2⟩⟩]
      (by decide) (by decide)).2.1

/-- Claim C2: if some call after the first supplies content whose checksum
differs from the first-stored checksum, then `has_duplicates()` is true and
the duplicates entry for the name lists at least two sources; and the
divergence test compares only against the first-stored checksum, so in an
A, B, B run the third occurrence — identical to the divergent second — is
still flagged and appended to the duplicates entry. -/
theorem c2_conflict_on_divergence :
    (∀ (cs : String → String) (n : String) (c0 : RegCall) (rest : List RegCall),
      (∀ c ∈ c0 :: rest, c.meta.name = n) →
      (∃ c ∈ rest, cs c.content ≠ cs c0.content) →
      (runCalls cs ⟨[], []⟩ (c0 :: rest)).has_duplicates = true
        ∧ ∃ l, (runCalls cs ⟨[], []⟩ (c0 :: rest)).duplicatesEntry n = some l
            ∧ 2 ≤ l.length)
    ∧ (∀ (cs : String → String) (n cA cB : String) (m1 m2 m3 : SkillMetadata)
        (s1 s2 s3 : SkillSource),
      m1.name = n → m2.name = n → m3.name = n → cs cB ≠ cs cA →
      (runCalls cs ⟨[], []⟩
          [⟨m1, cA, s1⟩, ⟨m2, cB, s2⟩, ⟨m3, cB, s3⟩]).duplicatesEntry n
        = some [s1, s2, s3, s3]) := by
  constructor
  · intro cs n c0 rest hname hdiv
    have h0 : c0.meta.name = n := hname c0 (by simp)
    have hrest : ∀ c ∈ rest, c.meta.name = n := fun c hc => hname c (by simp [hc])
    have hany : anyDivergent cs (some (cs c0.content)) rest = true :=
      anyDivergent_eq_true cs _ rest hdiv
    rw [runCalls_fresh cs n c0 rest h0 hrest]
    constructor
    · simp [SkillRegistry.has_duplicates, hany]
    · refine ⟨c0.source :: expectedSources cs (some (cs c0.content)) false rest,
        ?_, ?_⟩
      · simp [SkillRegistry.duplicatesEntry, hany, lookupName]
      · obtain ⟨c, hc, _⟩ := hdiv
        have hlen := expectedSources_length_ge cs (some (cs c0.content)) rest false
        have hpos : 0 < rest.length := List.length_pos.mpr (List.ne_nil_of_mem hc)
        simp only [List.length_cons]
        omega
  · intro cs n cA cB m1 m2 m3 s1 s2 s3 h1 h2 h3 hne
    have hAB' : ¬ (cs cA = cs cB) := Ne.symm hne
    have hAB : ¬ (some (cs cA) = some (cs cB)) := by simpa using hAB'
    have hname : ∀ c ∈ [(⟨m2, cB, s2⟩ : RegCall), ⟨m3, cB, s3⟩], c.meta.name = n := by
      intro c hc
      simp only [List.mem_cons, List.mem_singleton, List.not_mem_nil] at hc
      rcases hc with rfl | rfl | h
      · exact h2
      · exact h3
      · exact absurd h (by simp)
    rw [runCalls_fresh cs n ⟨m1, cA, s1⟩ [⟨m2, cB, s2⟩, ⟨m3, cB, s3⟩] h1 hname]
    simp [SkillRegistry.duplicatesEntry, anyDivergent, expectedSources, hAB,
      hAB', lookupName]

/-- Witness for C2 at a concrete divergent two-call run. -/
theorem c2_witness :
    (runCalls (fun s => s) ⟨[], []⟩
        [⟨⟨"n1", "d", none, none, none⟩, "A", ⟨"p1", "cursor", 1⟩⟩,
         ⟨⟨"n1", "d", none, none, none⟩, "B", ⟨"p2", "claude", 2⟩⟩]).has_duplicates
      = true :=
  (c2_conflict_on_divergence.1 (fun s => s) "n1"
      ⟨⟨"n1", "d", none, none, none⟩, "A", ⟨"p1", "cursor", 1⟩⟩
      [⟨⟨"n1", "d", none, none, none⟩, "B", ⟨"p2", "claude", 2⟩⟩]
      (by decide)
      ⟨⟨⟨"n1", "d", none, none, none⟩, "B", ⟨"p2", "claude", 2⟩⟩,
        List.mem_singleton.mpr rfl, by decide⟩).1

/-- Claim C3 as stated is false at a concrete A, B, B run: the source aliases
`duplicates[name]` to the skill's source list (`self.duplicates[name] =
existing.sources`), so the second divergent call's source is appended twice —
once by `existing.sources.append(source)` and once by
`self.duplicates[name].append(source)` — and the duplicates entry does not
contain each source exactly once. -/
theorem c3_counterexample :
    (runCalls (fun s => s) ⟨[], []⟩
        [⟨⟨"alpha", "d", none, none, none⟩, "A", ⟨"pa", "cursor", 1⟩⟩,
         ⟨⟨"alpha", "d", none, none, none⟩, "B", ⟨"pb", "claude", 2⟩⟩,
         ⟨⟨"alpha", "d", none, none, none⟩, "B", ⟨"pc", "qoder", 3⟩⟩]).duplicatesEntry
        "alpha"
      = some [⟨"pa", "cursor", 1⟩, ⟨"pb", "claude", 2⟩, ⟨"pc", "qoder", 3⟩,
              ⟨"pc", "qoder", 3⟩]
    ∧ (runCalls (fun s => s) ⟨[], []⟩
        [⟨⟨"alpha", "d", none, none, none⟩, "A", ⟨"pa", "cursor", 1⟩⟩,
         ⟨⟨"alpha", "d", none, none, none⟩, "B", ⟨"pb", "claude", 2⟩⟩,
         ⟨⟨"alpha", "d", none, none, none⟩, "B", ⟨"pc", "qoder", 3⟩⟩]).duplicatesEntry
        "alpha"
      ≠ some [⟨"pa", "cursor", 1⟩, ⟨"pb", "claude", 2⟩, ⟨"pc", "qoder", 3⟩] := by
  constructor <;> decide

/-- Claim C3 (amended): once divergence occurs, the duplicates entry for the
name is the very list object the skill's `sources` field holds; at first
detection it contains every source seen so far (the divergent call's
included), and afterwards every further call's source also appears in it —
once for a checksum-equal call (via the aliased `sources.append`), twice for a
divergent call (the explicit `duplicates[name].append` adds a second copy) —
in discovery order, as captured by `expectedSources`. -/
theorem c3_duplicates_entry_characterization (cs : String → String) (n : String)
    (c0 : RegCall) (rest : List RegCall)
    (hname : ∀ c ∈ c0 :: rest, c.meta.name = n)
    (hdiv : ∃ c ∈ rest, cs c.content ≠ cs c0.content) :
    (runCalls cs ⟨[], []⟩ (c0 :: rest)).duplicatesEntry n =
        some (c0.source :: expectedSources cs (some (cs c0.content)) false rest)
      ∧ ((runCalls cs ⟨[], []⟩ (c0 :: rest)).get_skill n).map (·.sources) =
        (runCalls cs ⟨[], []⟩ (c0 :: rest)).duplicatesEntry n := by
  have h0 : c0.meta.name = n := hname c0 (by simp)
  have hrest : ∀ c ∈ rest, c.meta.name = n := fun c hc => hname c (by simp [hc])
  have hany : anyDivergent cs (some (cs c0.content)) rest = true :=
    anyDivergent_eq_true cs _ rest hdiv
  rw [runCalls_fresh cs n c0 rest h0 hrest]
  constructor
  · simp [SkillRegistry.duplicatesEntry, hany, lookupName]
  · simp [SkillRegistry.duplicatesEntry, SkillRegistry.get_skill, hany, lookupName]

/-- Witness for the amended C3 at a concrete A, B run. -/
theorem c3_witness :
    (runCalls (fun s => s) ⟨[], []⟩
        [⟨⟨"gamma", "d", none, none, none⟩, "A", ⟨"qa", "cursor", 4⟩⟩,
         ⟨⟨"gamma", "d", none, none, none⟩, "B", ⟨"qb", "claude", 5⟩⟩]).duplicatesEntry
        "gamma"
      = some ((⟨"qa", "cursor", 4⟩ : SkillSource) ::
          expectedSources (fun s => s) (some "A") false
            [⟨⟨"gamma", "d", none, none, none⟩, "B", ⟨"qb", "claude", 5⟩⟩]) :=
  (c3_duplicates_entry_characterization (fun s => s) "gamma"
      ⟨⟨"gamma", "d", none, none, none⟩, "A", ⟨"qa", "cursor", 4⟩⟩
      [⟨⟨"gamma", "d", none, none, none⟩, "B", ⟨"qb", "claude", 5⟩⟩]
      (by decide)
      ⟨⟨⟨"gamma", "d", none, none, none⟩, "B", ⟨"qb", "claude", 5⟩⟩,
        List.mem_singleton.mpr rfl, by decide⟩).1

/-- Claim C10 as stated is false at a concrete x, y, y run: three calls leave
four source entries (the second divergent call's source is stored twice via
the duplicates-list alias), so the sources list does not have exactly one
entry per call. -/
theorem c10_counterexample :
    ((runCalls (fun s => s) ⟨[], []⟩
        [⟨⟨"beta", "d", none, none, none⟩, "x", ⟨"qa", "cursor", 1⟩⟩,
         ⟨⟨"beta", "d", none, none, none⟩, "y", ⟨"qb", "claude", 2⟩⟩,
         ⟨⟨"beta", "d", none, none, none⟩, "y", ⟨"qc", "qoder", 3⟩⟩]).get_skill
        "beta").map (·.sources)
      = some [⟨"qa", "cursor", 1⟩, ⟨"qb", "claude", 2⟩, ⟨"qc", "qoder", 3⟩,
              ⟨"qc", "qoder", 3⟩]
    ∧ ((runCalls (fun s => s) ⟨[], []⟩
        [⟨⟨"beta", "d", none, none, none⟩, "x", ⟨"qa", "cursor", 1⟩⟩,
         ⟨⟨"beta", "d", none, none, none⟩, "y", ⟨"qb", "claude", 2⟩⟩,
         ⟨⟨"beta", "d", none, none, none⟩, "y", ⟨"qc", "qoder", 3⟩⟩]).get_skill
        "beta").map (·.sources)
      ≠ some [⟨"qa", "cursor", 1⟩, ⟨"qb", "claude", 2⟩, ⟨"qc", "qoder", 3⟩] := by
  constructor <;> decide

/-- Claim C10 (amended): after any same-named run the registry holds exactly
one entry for the name; its content, checksum and metadata are the first
call's and are never overwritten; its sources are in call order with one entry
per call, except that each divergent call made after divergence was first
recorded contributes two consecutive copies of its source (through the
duplicates-list alias), as captured by `expectedSources`. -/
theorem c10_sources_growth_characterization (cs : String → String) (n : String)
    (c0 : RegCall) (rest : List RegCall)
    (hname : ∀ c ∈ c0 :: rest, c.meta.name = n) :
    (runCalls cs ⟨[], []⟩ (c0 :: rest)).skills =
      [(n, { metadata := c0.meta, content := c0.content,
             sources := c0.source ::
               expectedSources cs (some (cs c0.content)) false rest,
             checksum := some (cs c0.content) })] := by
  have h0 : c0.meta.name = n := hname c0 (by simp)
  have hrest : ∀ c ∈ rest, c.meta.name = n := fun c hc => hname c (by simp [hc])
  rw [runCalls_fresh cs n c0 rest h0 hrest]

/-- Witness for the amended C10 at a concrete x, y run. -/
theorem c10_witness :
    (runCalls (fun s => s) ⟨[], []⟩
        [⟨⟨"delta", "d", none, none, none⟩, "x", ⟨"ra", "cursor", 6⟩⟩,
         ⟨⟨"delta", "d", none, none, none⟩, "y", ⟨"rb", "claude", 7⟩⟩]).skills =
      [("delta",
        { metadata := ⟨"delta", "d", none, none, none⟩, content := "x",
          sources := (⟨"ra", "cursor", 6⟩ : SkillSource) ::
            expectedSources (fun s => s) (some "x") false
              [⟨⟨"delta", "d", none, none, none⟩, "y", ⟨"rb", "claude", 7⟩⟩],
          checksum := some "x" })] :=
  c10_sources_growth_characterization (fun s => s) "delta"
    ⟨⟨"delta", "d", none, none, none⟩, "x", ⟨"ra", "cursor", 6⟩⟩
    [⟨⟨"delta", "d", none, none, none⟩, "y", ⟨"rb", "claude", 7⟩⟩]
    (by decide)

/-! ### Frontmatter parser (`utils/yaml_parser.py`)

`parse_skill_file` applies `re.match(r"^---\s*\n(.*?)\n---\s*\n(.*)$", content,
re.DOTALL)`.  The match is embedded as an explicit backtracking search in the
engine's preference order: a greedy `\s*\n` tries the candidate newlines of
the whitespace run from the longest prefix down, the lazy `(.*?)` tries
split points from the shortest up, and the final `(.*)$` always succeeds, so
the closing `\s*\n` only ever uses its longest candidate. -/

/-- The characters Python's `\s` matches on `str` patterns (no `re.ASCII`):
U+0009–U+000D, U+001C–U+001F, the space, NEL, NBSP, OGHAM SPACE MARK,
U+2000–U+200A, LINE/PARAGRAPH SEPARATOR, NARROW NBSP, MMSP and IDEOGRAPHIC
SPACE — the code points for which `Py_UNICODE_ISSPACE` holds. -/
def isPyWhitespace (c : Char) : Bool :=
  (0x9 ≤ c.toNat && c.toNat ≤ 0xD) || (0x1C ≤ c.toNat && c.toNat ≤ 0x1F)
    || c.toNat == 0x20 || c.toNat == 0x85 || c.toNat == 0xA0
    || c.toNat == 0x1680 || (0x2000 ≤ c.toNat && c.toNat ≤ 0x200A)
    || c.toNat == 0x2028 || c.toNat == 0x2029 || c.toNat == 0x202F
    || c.toNat == 0x205F || c.toNat == 0x3000

/-- Candidate end positions for `\s*\n` at the head of `l`: positions `p` with
`l[p] = '\n'` and only whitespace before, longest candidate first (the greedy
order `\s*` backtracks through). -/
def wsNewlinePositions (l : List Char) : List Nat :=
  ((List.range l.length).filter
    (fun p => (l.take p).all isPyWhitespace && l[p]? == some '\n')).reverse

/-- Search for `(.*?)\n---\s*\n(.*)$` in `l`: lazy split points in ascending
order; on success returns the first capture group and the remainder group. -/
def findClose (l : List Char) : Option (List Char × List Char) :=
  (List.range (l.length + 1)).findSome? fun j =>
    if (l.drop j).take 4 == ['\n', '-', '-', '-'] then
      match (wsNewlinePositions (l.drop (j + 4))).head? with
      | some p => some (l.take j, (l.drop (j + 4)).drop (p + 1))
      | none => none
    else none

/-- The full frontmatter match: on success, the YAML block (group 1) and the
body (group 2). -/
def matchFrontmatter (content : String) : Option (String × String) :=
  let l := content.data
  if l.take 3 == ['-', '-', '-'] then
    (wsNewlinePositions (l.drop 3)).findSome? fun p =>
      (findClose ((l.drop 3).drop (p + 1))).map
        (fun pr => (String.mk pr.1, String.mk pr.2))
  else none

/-- Python truthiness of a YAML-decoded value (`if not name: ...`). -/
def YamlValue.pyTruthy : YamlValue → Bool
  | .null => false
  | .bool b => b
  | .int n => decide (n ≠ 0)
  | .str s => decide (s ≠ "")
  | .list xs => !xs.isEmpty
  | .map ps => !ps.isEmpty

/-- `frontmatter.get(key)`: `Option.none` models Python `None`, whether the
key is absent or explicitly null (indistinguishable to the caller). -/
def yamlGet (pairs : List (String × YamlValue)) (key : String) : Option YamlValue :=
  match pairs.lookup key with
  | some .null => none
  | v => v

/-- Truthiness of an optional value (`dict.get` result). -/
def truthyOpt : Option YamlValue → Bool
  | none => false
  | some v => v.pyTruthy

/-- Comma-joined rendering of fragments, as in Python container `repr`. -/
def joinComma (xs : List String) : String := String.intercalate ", " xs

/-- A single-quote character, built by code point to keep source text plain. -/
def pyQuote : String := String.mk [Char.ofNat 39]

mutual

/-- Python `repr` of a YAML-decoded value.  Escaping inside strings is not
modeled; no claim depends on it. -/
def pyRepr : YamlValue → String
  | .null => "None"
  | .bool true => "True"
  | .bool false => "False"
  | .int n => toString n
  | .str s => pyQuote ++ s ++ pyQuote
  | .list xs => "[" ++ joinComma (pyReprList xs) ++ "]"
  | .map ps => "\x7b" ++ joinComma (pyReprPairs ps) ++ "\x7d"

def pyReprList : List YamlValue → List String
  | [] => []
  | v :: vs => pyRepr v :: pyReprList vs

def pyReprPairs : List (String × YamlValue) → List String
  | [] => []
  | (k, v) :: ps => (pyQuote ++ k ++ pyQuote ++ ": " ++ pyRepr v) :: pyReprPairs ps

end

/-- Python `str(v)`: identity on strings, `repr` otherwise. -/
def pyStr : YamlValue → String
  | .str s => s
  | v => pyRepr v

/-- Whether an optional value is a Python `str` (`isinstance(v, str)`). -/
def isStrOpt : Option YamlValue → Bool
  | some (.str _) => true
  | _ => false

/-- The string payload of a value already known to be a string. -/
def asStrOpt : Option YamlValue → String
  | some (.str s) => s
  | _ => ""

/-- `metadata is not None and not isinstance(metadata, dict)`. -/
def mdNotDict : Option YamlValue → Bool
  | none => false
  | some (.map _) => false
  | some _ => true

/-- The stored metadata map: `{k: str(v) for k, v in metadata.items()}` when a
mapping is present (the source skips the comprehension for a falsy empty
mapping, which yields the same empty map), `None` otherwise. -/
def mdCoerce : Option YamlValue → Option (List (String × String))
  | some (.map ps) => some (ps.map fun p => (p.1, pyStr p.2))
  | _ => none

/-- The field-validation tail of `parse_skill_file`, entered once the
frontmatter decoded to a mapping. -/
def parsePipeline (frontmatter : List (String × YamlValue)) (body : String) :
    Except String (SkillMetadata × String) :=
  let name := yamlGet frontmatter "name"
  let description := yamlGet frontmatter "description"
  if !truthyOpt name then .error "Missing required field: name"
  else if !truthyOpt description then .error "Missing required field: description"
  else if !(isStrOpt name && isStrOpt description) then
    .error "name and description must be strings"
  else if !validate_skill_name (asStrOpt name) then
    .error "Invalid skill name: must be lowercase alphanumeric with single hyphens, 1-64 chars"
  else if !validate_description (asStrOpt description) then
    .error "Invalid description: must be 1-1024 characters"
  else
    let metadata := yamlGet frontmatter "metadata"
    if mdNotDict metadata then .error "metadata field must be a dictionary"
    else
      .ok ({ name := asStrOpt name, description := asStrOpt description,
             license := yamlGet frontmatter "license",
             compatibility := yamlGet frontmatter "compatibility",
             metadata := mdCoerce metadata }, body)

/-- `parse_skill_file`: frontmatter extraction, YAML decoding (abstracted as
the `yamlLoad` oracle), then field validation.  `Except.error` models a raised
`SkillParseError`. -/
def parse_skill_file (yamlLoad : String → Except String YamlValue)
    (content : String) : Except String (SkillMetadata × String) :=
  match matchFrontmatter content with
  | none => .error "Missing or invalid YAML frontmatter"
  | some (frontmatter_str, body) =>
    match yamlLoad frontmatter_str with
    | .error e => .error ("Invalid YAML: " ++ e)
    | .ok (.map frontmatter) => parsePipeline frontmatter body
    | .ok _ => .error "Frontmatter must be a YAML dictionary"

/-- Outcome of `path.read_text(encoding="utf-8")`: the decoded text, a raised
`OSError`, or a raised `UnicodeDecodeError` (a `ValueError`) when the bytes
are not valid UTF-8. -/
inductive ReadResult where
  | ok (content : String)
  | oserror
  | unicodeDecodeError
deriving DecidableEq

/-- `parse_skill_file_from_path`: `try` the read and the parse, `except
(OSError, SkillParseError): return None`.  That clause does **not** catch the
`UnicodeDecodeError` that `read_text` raises on invalid UTF-8 — a
`ValueError`, neither an `OSError` nor a `SkillParseError` — so that
exception propagates out of the wrapper, modeled by `Except.error`. -/
def parse_skill_file_from_path (yamlLoad : String → Except String YamlValue)
    (readFile : String → ReadResult) (path : String) :
    Except String (Option (SkillMetadata × String)) :=
  match readFile path with
  | .oserror => .ok none
  | .unicodeDecodeError => .error ("UnicodeDecodeError: " ++ path)
  | .ok content =>
    match parse_skill_file yamlLoad content with
    | .error _ => .ok none
    | .ok r => .ok (some r)

lemma validate_skill_name_ne_empty {s : String}
    (h : validate_skill_name s = true) : s ≠ "" := by
  intro hs
  rw [hs] at h
  exact absurd h (by decide)

lemma validate_description_ne_empty {s : String}
    (h : validate_description s = true) : s ≠ "" := by
  intro hs
  rw [hs] at h
  exact absurd h (by decide)

/-- The claim's condition on the `name` field: present, a string, and passing
validation. -/
def nameFieldOk (fm : List (String × YamlValue)) : Prop :=
  ∃ s, yamlGet fm "name" = some (.str s) ∧ validate_skill_name s = true

/-- The claim's condition on the `description` field. -/
def descFieldOk (fm : List (String × YamlValue)) : Prop :=
  ∃ s, yamlGet fm "description" = some (.str s) ∧ validate_description s = true

/-- The claim's condition on `metadata`: present but not a mapping. -/
def metadataFieldBad (fm : List (String × YamlValue)) : Prop :=
  ∃ v, yamlGet fm "metadata" = some v ∧ ∀ ps, v ≠ .map ps

lemma nameFieldOk_iff (fm : List (String × YamlValue)) :
    nameFieldOk fm ↔
      (truthyOpt (yamlGet fm "name") = true
        ∧ isStrOpt (yamlGet fm "name") = true
        ∧ validate_skill_name (asStrOpt (yamlGet fm "name")) = true) := by
  cases hv : yamlGet fm "name" with
  | none => simp [nameFieldOk, hv, truthyOpt, isStrOpt]
  | some v =>
    cases v with
    | str s =>
      constructor
      · rintro ⟨s', hs', hval⟩
        have h2 := hv.symm.trans hs'
        simp only [Option.some.injEq, YamlValue.str.injEq] at h2
        subst h2
        refine ⟨?_, by simp [hv, isStrOpt], by simpa [hv, asStrOpt] using hval⟩
        simp [hv, truthyOpt, YamlValue.pyTruthy]
        exact validate_skill_name_ne_empty hval
      · rintro ⟨_, _, hval⟩
        exact ⟨s, hv, by simpa [hv, asStrOpt] using hval⟩
    | null => simp [nameFieldOk, hv, isStrOpt]
    | bool b => simp [nameFieldOk, hv, isStrOpt]
    | int n => simp [nameFieldOk, hv, isStrOpt]
    | list xs => simp [nameFieldOk, hv, isStrOpt]
    | map ps => simp [nameFieldOk, hv, isStrOpt]

lemma descFieldOk_iff (fm : List (String × YamlValue)) :
    descFieldOk fm ↔
      (truthyOpt (yamlGet fm "description") = true
        ∧ isStrOpt (yamlGet fm "description") = true
        ∧ validate_description (asStrOpt (yamlGet fm "description")) = true) := by
  cases hv : yamlGet fm "description" with
  | none => simp [descFieldOk, hv, truthyOpt, isStrOpt]
  | some v =>
    cases v with
    | str s =>
      constructor
      · rintro ⟨s', hs', hval⟩
        have h2 := hv.symm.trans hs'
        simp only [Option.some.injEq, YamlValue.str.injEq] at h2
        subst h2
        refine ⟨?_, by simp [hv, isStrOpt], by simpa [hv, asStrOpt] using hval⟩
        simp [hv, truthyOpt, YamlValue.pyTruthy]
        exact validate_description_ne_empty hval
      · rintro ⟨_, _, hval⟩
        exact ⟨s, hv, by simpa [hv, asStrOpt] using hval⟩
    | null => simp [descFieldOk, hv, isStrOpt]
    | bool b => simp [descFieldOk, hv, isStrOpt]
    | int n => simp [descFieldOk, hv, isStrOpt]
    | list xs => simp [descFieldOk, hv, isStrOpt]
    | map ps => simp [descFieldOk, hv, isStrOpt]

lemma metadataFieldBad_iff (fm : List (String × YamlValue)) :
    metadataFieldBad fm ↔ mdNotDict (yamlGet fm "metadata") = true := by
  cases hv : yamlGet fm "metadata" with
  | none => simp [metadataFieldBad, hv, mdNotDict]
  | some v =>
    cases v with
    | null =>
      exact iff_of_true ⟨.null, hv, by simp⟩ (by simp [hv, mdNotDict])
    | bool b =>
      exact iff_of_true ⟨.bool b, hv, by simp⟩ (by simp [hv, mdNotDict])
    | int n =>
      exact iff_of_true ⟨.int n, hv, by simp⟩ (by simp [hv, mdNotDict])
    | str s =>
      exact iff_of_true ⟨.str s, hv, by simp⟩ (by simp [hv, mdNotDict])
    | list xs =>
      exact iff_of_true ⟨.list xs, hv, by simp⟩ (by simp [hv, mdNotDict])
    | map ps =>
      refine iff_of_false ?_ (by simp [hv, mdNotDict])
      rintro ⟨v', hv', hall⟩
      have h2 := hv.symm.trans hv'
      simp only [Option.some.injEq] at h2
      exact hall ps (by rw [← h2])

lemma parsePipeline_error_iff (ps : List (String × YamlValue)) (b : String) :
    (∃ e, parsePipeline ps b = .error e) ↔
      (¬ nameFieldOk ps ∨ ¬ descFieldOk ps ∨ metadataFieldBad ps) := by
  rw [nameFieldOk_iff, descFieldOk_iff, metadataFieldBad_iff]
  cases htn : truthyOpt (yamlGet ps "name") <;>
    cases htd : truthyOpt (yamlGet ps "description") <;>
    cases hsn : isStrOpt (yamlGet ps "name") <;>
    cases hsd : isStrOpt (yamlGet ps "description") <;>
    cases hvn : validate_skill_name (asStrOpt (yamlGet ps "name")) <;>
    cases hvd : validate_description (asStrOpt (yamlGet ps "description")) <;>
    cases hmd : mdNotDict (yamlGet ps "metadata") <;>
    simp [parsePipeline, htn, htd, hsn, hsd, hvn, hvd, hmd]

/-- The claim's enumeration of failure causes for `parse_skill_file`. -/
def parseFailsSpec (yamlLoad : String → Except String YamlValue)
    (content : String) : Prop :=
  matchFrontmatter content = none
  ∨ ∃ fm body, matchFrontmatter content = some (fm, body) ∧
      ((∃ e, yamlLoad fm = .error e)
        ∨ (∃ v, yamlLoad fm = .ok v ∧ ∀ ps, v ≠ .map ps)
        ∨ (∃ ps, yamlLoad fm = .ok (.map ps) ∧
            (¬ nameFieldOk ps ∨ ¬ descFieldOk ps ∨ metadataFieldBad ps)))

/-- Claim C4: `parse_skill_file` raises `SkillParseError` exactly when the
delimiter pair is absent, the YAML block is invalid or not a mapping, `name`
or `description` is absent, non-string or fails validation, or `metadata` is
present and not a mapping; on every other input it returns the metadata/body
pair, with metadata map values coerced through `str` rather than rejected. -/
theorem c4_parse_error_exactly (yamlLoad : String → Except String YamlValue)
    (content : String) :
    ((∃ e, parse_skill_file yamlLoad content = .error e) ↔
      parseFailsSpec yamlLoad content)
    ∧ (∀ meta body, parse_skill_file yamlLoad content = .ok (meta, body) →
        ∃ fm ps, matchFrontmatter content = some (fm, body)
          ∧ yamlLoad fm = .ok (.map ps)
          ∧ meta.name = asStrOpt (yamlGet ps "name")
          ∧ meta.description = asStrOpt (yamlGet ps "description")
          ∧ meta.metadata = mdCoerce (yamlGet ps "metadata")) := by
  cases hm : matchFrontmatter content with
  | none =>
    constructor
    · simp [parse_skill_file, hm, parseFailsSpec]
    · intro meta body h
      simp [parse_skill_file, hm] at h
  | some pr =>
    obtain ⟨f, b⟩ := pr
    cases hy : yamlLoad f with
    | error e =>
      constructor
      · simp [parse_skill_file, hm, hy, parseFailsSpec]
      · intro meta body h
        simp [parse_skill_file, hm, hy] at h
    | ok v =>
      cases v with
      | map ps =>
        have hred : parse_skill_file yamlLoad content = parsePipeline ps b := by
          simp [parse_skill_file, hm, hy]
        constructor
        · rw [hred, parsePipeline_error_iff]
          constructor
          · intro hcond
            exact Or.inr ⟨f, b, hm, Or.inr (Or.inr ⟨ps, hy, hcond⟩)⟩
          · rintro (hnone | ⟨fm, body, hsome, hcase⟩)
            · rw [hm] at hnone
              exact absurd hnone (by simp)
            · rw [hm] at hsome
              simp only [Option.some.injEq, Prod.mk.injEq] at hsome
              obtain ⟨rfl, rfl⟩ := hsome
              rcases hcase with ⟨e, he⟩ | ⟨v, hv, hnm⟩ | ⟨ps', hps', hcond⟩
              · rw [hy] at he
                exact absurd he (by simp)
              · rw [hy] at hv
                simp only [Except.ok.injEq] at hv
                exact absurd rfl (hv ▸ hnm ps)
              · rw [hy] at hps'
                simp only [Except.ok.injEq, YamlValue.map.injEq] at hps'
                exact hps' ▸ hcond
        · intro meta body2 hok
          rw [hred] at hok
          simp only [parsePipeline] at hok
          split_ifs at hok with h1 h2 h3 h4 h5 h6 <;>
            first
            | exact Except.noConfusion hok
            | (simp only [Except.ok.injEq, Prod.mk.injEq] at hok
               obtain ⟨rfl, rfl⟩ := hok
               exact ⟨f, ps, rfl, hy, rfl, rfl, rfl⟩)
      | null =>
        constructor
        · simp only [parse_skill_file, hm, hy, parseFailsSpec]
          constructor
          · intro _
            exact Or.inr ⟨f, b, rfl, Or.inr (Or.inl ⟨.null, hy, by simp⟩)⟩
          · intro _
            exact ⟨_, rfl⟩
        · intro meta body h
          simp [parse_skill_file, hm, hy] at h
      | bool b2 =>
        constructor
        · simp only [parse_skill_file, hm, hy, parseFailsSpec]
          constructor
          · intro _
            exact Or.inr ⟨f, b, rfl, Or.inr (Or.inl ⟨.bool b2, hy, by simp⟩)⟩
          · intro _
            exact ⟨_, rfl⟩
        · intro meta body h
          simp [parse_skill_file, hm, hy] at h
      | int n =>
        constructor
        · simp only [parse_skill_file, hm, hy, parseFailsSpec]
          constructor
          · intro _
            exact Or.inr ⟨f, b, rfl, Or.inr (Or.inl ⟨.int n, hy, by simp⟩)⟩
          · intro _
            exact ⟨_, rfl⟩
        · intro meta body h
          simp [parse_skill_file, hm, hy] at h
      | str s =>
        constructor
        · simp only [parse_skill_file, hm, hy, parseFailsSpec]
          constructor
          · intro _
            exact Or.inr ⟨f, b, rfl, Or.inr (Or.inl ⟨.str s, hy, by simp⟩)⟩
          · intro _
            exact ⟨_, rfl⟩
        · intro meta body h
          simp [parse_skill_file, hm, hy] at h
      | list xs =>
        constructor
        · simp only [parse_skill_file, hm, hy, parseFailsSpec]
          constructor
          · intro _
            exact Or.inr ⟨f, b, rfl, Or.inr (Or.inl ⟨.list xs, hy, by simp⟩)⟩
          · intro _
            exact ⟨_, rfl⟩
        · intro meta body h
          simp [parse_skill_file, hm, hy] at h

/-- A concrete YAML oracle for the C4 witness. -/
def c4YamlOracle : String → Except String YamlValue := fun _ =>
  .ok (.map [("name", .str "ab"), ("description", .str "d"),
             ("metadata", .map [("k", .int 3)])])

/-- Witness for C4 on a concrete successful parse with coerced metadata. -/
theorem c4_witness :
    ∃ fm ps,
      matchFrontmatter "---\nx\n---\nbody" = some (fm, "body")
      ∧ c4YamlOracle fm = Except.ok (YamlValue.map ps)
      ∧ (⟨"ab", "d", none, none, some [("k", "3")]⟩ : SkillMetadata).name
          = asStrOpt (yamlGet ps "name")
      ∧ (⟨"ab", "d", none, none, some [("k", "3")]⟩ : SkillMetadata).description
          = asStrOpt (yamlGet ps "description")
      ∧ (⟨"ab", "d", none, none, some [("k", "3")]⟩ : SkillMetadata).metadata
          = mdCoerce (yamlGet ps "metadata") :=
  (c4_parse_error_exactly c4YamlOracle "---\nx\n---\nbody").2
    ⟨"ab", "d", none, none, some [("k", "3")]⟩ "body" (by rfl)

/-! ### Discovery engine loops (`discovery/engine.py`)

The file system the discovery engine reads is an explicit value: a map from
path strings to on-disk files — each either valid UTF-8 text or undecodable
bytes — plus the set of existing directories.  `Except.error` models an
uncaught Python exception escaping the function; `Except.ok` a normal return.
`rglob` order is the file-list order. -/

/-- A file as `read_text(encoding="utf-8")` sees it: decodable text, or bytes
that raise `UnicodeDecodeError`. -/
inductive PyFile where
  | text (s : String)
  | invalidUtf8
deriving DecidableEq

structure RawFileSys where
  files : List (String × PyFile)
  dirs : List String

/-- `path.read_text(encoding="utf-8")` against the raw file system. -/
def read_text (fs : RawFileSys) (path : String) : ReadResult :=
  match (fs.files.find? (fun p => p.1 == path)).map (·.2) with
  | none => ReadResult.oserror
  | some (PyFile.text s) => ReadResult.ok s
  | some PyFile.invalidUtf8 => ReadResult.unicodeDecodeError

/-- `path.exists()` against the raw file system. -/
def pathExistsRaw (fs : RawFileSys) (p : String) : Bool :=
  fs.dirs.contains p || fs.files.any (fun f => f.1 == p)

/-- `a / b` on `pathlib` paths, in string form. -/
def pathJoin (a b : String) : String := a ++ "/" ++ b

/-- Whether `pre` is a prefix of `s`, on the character lists. -/
def strStartsWith (s pre : String) : Bool :=
  s.data.take pre.data.length == pre.data

/-- Whether `suf` is a suffix of `s`, on the character lists. -/
def strEndsWith (s suf : String) : Bool :=
  s.data.drop (s.data.length - suf.data.length) == suf.data

/-- `skills_dir.rglob("SKILL.md")`: every file under `dir` whose final
component is `SKILL.md`. -/
def rglobSkillMd (fs : RawFileSys) (dir : String) : List String :=
  (fs.files.map (·.1)).filter
    (fun p => strStartsWith p (dir ++ "/") && strEndsWith p "/SKILL.md")

/-- `DiscoveryEngine._process_skill_file`.  A `none` from the wrapped parse
only skips the file, but an exception out of the wrapper — or out of the
second, unguarded `skill_path.read_text()` — propagates.  The
directory-name/skill-name comparison only logs a warning. -/
def processSkillFile (cs : String → String)
    (yamlLoad : String → Except String YamlValue) (fs : RawFileSys)
    (path agent : String) (now : Nat) (reg : SkillRegistry) :
    Except String SkillRegistry :=
  match parse_skill_file_from_path yamlLoad (read_text fs) path with
  | .error e => .error e
  | .ok none => .ok reg
  | .ok (some (metadata, _body)) =>
    match read_text fs path with
    | .ok full_content =>
      .ok (reg.add_skill cs metadata full_content ⟨path, agent, now⟩)
    | .oserror => .error ("OSError: " ++ path)
    | .unicodeDecodeError => .error ("UnicodeDecodeError: " ++ path)

/-- The per-directory file loop inside `DiscoveryEngine._scan_directory`. -/
def processFiles (cs : String → String)
    (yamlLoad : String → Except String YamlValue) (fs : RawFileSys)
    (agent : String) (now : Nat) :
    List String → SkillRegistry → Except String SkillRegistry
  | [], reg => .ok reg
  | p :: ps, reg =>
    match processSkillFile cs yamlLoad fs p agent now reg with
    | .error e => .error e
    | .ok reg' => processFiles cs yamlLoad fs agent now ps reg'

/-- `DiscoveryEngine._scan_directory`. -/
def scanDirectory (cs : String → String)
    (yamlLoad : String → Except String YamlValue) (fs : RawFileSys)
    (base agent : String) (now : Nat) (reg : SkillRegistry) :
    Except String SkillRegistry :=
  let skills_dir := pathJoin base "skills"
  if pathExistsRaw fs skills_dir then
    processFiles cs yamlLoad fs agent now (rglobSkillMd fs skills_dir) reg
  else .ok reg

/-- `DiscoveryEngine.discover_skills`: the search-path loop (the engine starts
from the empty registry `SkillRegistry.init`). -/
def discover_skills (cs : String → String)
    (yamlLoad : String → Except String YamlValue) (fs : RawFileSys) (now : Nat) :
    List (String × String) → SkillRegistry → Except String SkillRegistry
  | [], reg => .ok reg
  | (base, agent) :: rest, reg =>
    if pathExistsRaw fs base then
      match scanDirectory cs yamlLoad fs base agent now reg with
      | .error e => .error e
      | .ok reg' => discover_skills cs yamlLoad fs now rest reg'
    else discover_skills cs yamlLoad fs now rest reg

/-- Claim C5 fails on the code: the wrapper catches only `(OSError,
SkillParseError)`, but `read_text(encoding="utf-8")` on a `SKILL.md` whose
bytes are not valid UTF-8 raises `UnicodeDecodeError`, a `ValueError`, which
therefore escapes `parse_skill_file_from_path` and propagates out of
`DiscoveryEngine.discover_skills`.  At the concrete failing input — one
undecodable `SKILL.md` under a search path — the wrapper and the whole scan
raise, while an `OSError` read failure and a `SkillParseError` (here:
contents with no frontmatter) are indeed converted to `None`. -/
theorem c5_unicode_decode_error_escapes :
    parse_skill_file_from_path (fun _ => .error "yaml")
        (fun _ => ReadResult.unicodeDecodeError) "b/skills/x/SKILL.md"
      = .error "UnicodeDecodeError: b/skills/x/SKILL.md"
    ∧ discover_skills (fun s => s) (fun _ => .error "yaml")
        ⟨[("b/skills/x/SKILL.md", PyFile.invalidUtf8)],
          ["b", "b/skills", "b/skills/x"]⟩ 0
        [("b", "cursor")] ⟨[], []⟩
      = .error "UnicodeDecodeError: b/skills/x/SKILL.md"
    ∧ parse_skill_file_from_path (fun _ => .error "yaml")
        (fun _ => ReadResult.oserror) "p" = .ok none
    ∧ parse_skill_file_from_path (fun _ => .error "yaml")
        (fun _ => ReadResult.ok "no frontmatter here") "p" = .ok none := by
  refine ⟨rfl, rfl, rfl, rfl⟩

/-! ### JSON rendering and registry export (`discovery/engine.py`, `models.py`)

Timestamps are `Nat` ticks and `datetime.isoformat()` is modeled as their
decimal rendering; `json.dumps` is modeled structurally (`Json`) plus a
renderer in which `indent=2` whitespace and string escaping are elided — no
claim depends on either. -/

inductive Json where
  | null
  | str (s : String)
  | arr (xs : List Json)
  | obj (fields : List (String × Json))

mutual

/-- Rendering of a `Json` value (`json.dumps`, whitespace/escaping elided). -/
def renderJson : Json → String
  | .null => "null"
  | .str s => "\"" ++ s ++ "\""
  | .arr xs => "[" ++ joinComma (renderJsonList xs) ++ "]"
  | .obj fields => "\x7b" ++ joinComma (renderJsonPairs fields) ++ "\x7d"

def renderJsonList : List Json → List String
  | [] => []
  | v :: vs => renderJson v :: renderJsonList vs

def renderJsonPairs : List (String × Json) → List String
  | [] => []
  | (k, v) :: ps => ("\"" ++ k ++ "\": " ++ renderJson v) :: renderJsonPairs ps

end

/-- `datetime.isoformat()` on a `Nat` tick. -/
def isoformat (t : Nat) : String := toString t

/-- The per-source record `{"path": ..., "agent": ..., "discovered_at": ...}`
built both by `SkillRegistry.export_json` and the hub sidecar writer. -/
def sourceJson (src : SkillSource) : Json :=
  .obj [("path", .str src.path), ("agent", .str src.agent),
        ("discovered_at", .str (isoformat src.discovered_at))]

/-- `SkillRegistry.export_json`. -/
def SkillRegistry.export_json (reg : SkillRegistry) : List Json :=
  reg.skills.map (fun p =>
    .obj [("name", .str p.2.name),
          ("description", .str p.2.metadata.description),
          ("sources", .arr (p.2.sources.map sourceJson)),
          ("checksum", match p.2.checksum with | some s => .str s | none => .null)])

/-- The keys of a JSON object, in order. -/
def jsonKeys : Json → List String
  | .obj fields => fields.map (·.1)
  | _ => []

/-- Field access on a JSON object. -/
def jsonField (j : Json) (k : String) : Option Json :=
  match j with
  | .obj fields => (fields.find? (fun f => f.1 == k)).map (·.2)
  | _ => none

/-! ### Sync engine (`sync/engine.py`)

`hub` stands for `self.hub_path` (`~/.skills`).  The hub store is a map from
path strings to text contents plus the set of existing directories (the sync
engine reads and writes only files it owns, so decodability is not at issue
here).  File writes prepend to the file list and lookup takes the most recent
entry, modeling in-place overwrite; `fsEnsureDir` models `ensure_directory`. -/

structure FileSys where
  files : List (String × String)
  dirs : List String

/-- `path.read_text()` on the hub store: the stored contents, or `none` when
the file does not exist. -/
def readFS (fs : FileSys) (path : String) : Option String :=
  (fs.files.find? (fun p => p.1 == path)).map (·.2)

/-- `path.exists()` on the hub store. -/
def pathExistsFS (fs : FileSys) (p : String) : Bool :=
  fs.dirs.contains p || fs.files.any (fun f => f.1 == p)

/-- `safe_write_file` / `write_text`: overwrite `path` with `content`. -/
def fsWrite (fs : FileSys) (path content : String) : FileSys :=
  { fs with files := (path, content) :: fs.files }

/-- `ensure_directory`. -/
def fsEnsureDir (fs : FileSys) (d : String) : FileSys :=
  if fs.dirs.contains d then fs else { fs with dirs := fs.dirs ++ [d] }

/-- The sidecar record `SkillHubMetadata(...)` written by
`_sync_skill_to_hub`, with its dataclass field order. -/
def hubMetadataJson (skill : Skill) (now : Nat) : Json :=
  .obj [("name", .str skill.name),
        ("description", .str skill.metadata.description),
        ("sources", .arr (skill.sources.map sourceJson)),
        ("checksum", .str (skill.checksum.getD "")),
        ("last_sync_at", .str (isoformat now)),
        ("sync_history", .arr [])]

/-- The write branch of `_sync_skill_to_hub`: ensure the skill directory,
write the document, write the sidecar.  Note the document goes to
`hub/<name>/SKILL.md` — directly under the hub root, not under
`hub/skills/`. -/
def writeSkillToHub (hub : String) (fs : FileSys) (skill : Skill) (now : Nat) :
    FileSys :=
  let skill_dir := pathJoin hub skill.name
  let skill_file := pathJoin skill_dir "SKILL.md"
  let metadata_file := pathJoin (pathJoin hub ".skill-hub") (skill.name ++ ".json")
  fsWrite (fsWrite (fsEnsureDir fs skill_dir) skill_file skill.content)
    metadata_file (renderJson (hubMetadataJson skill now))

/-- `SyncEngine._sync_skill_to_hub`: `true` means synced, `false` skipped. -/
def sync_skill_to_hub (cs : String → String) (incremental : Bool) (hub : String)
    (fs : FileSys) (skill : Skill) (now : Nat) : Bool × FileSys :=
  let skill_file := pathJoin (pathJoin hub skill.name) "SKILL.md"
  match (if incremental then readFS fs skill_file else none) with
  | some existing_content =>
    if some (cs existing_content) == skill.checksum then (false, fs)
    else (true, writeSkillToHub hub fs skill now)
  | none => (true, writeSkillToHub hub fs skill now)

/-- The per-skill loop of `SyncEngine.pull_from_agents`: runs
`_sync_skill_to_hub` over the discovered skills, counting
(synced, skipped). -/
def pullSkillsToHub (cs : String → String) (incremental : Bool) (hub : String)
    (now : Nat) : List Skill → FileSys → (Nat × Nat) × FileSys
  | [], fs => ((0, 0), fs)
  | sk :: rest, fs =>
    match sync_skill_to_hub cs incremental hub fs sk now with
    | (true, fs') =>
      match pullSkillsToHub cs incremental hub now rest fs' with
      | ((s, k), fs'') => ((s + 1, k), fs'')
    | (false, fs') =>
      match pullSkillsToHub cs incremental hub now rest fs' with
      | ((s, k), fs'') => ((s, k + 1), fs'')

/-- Strip a prefix from a string, if present. -/
def dropPre (pre s : String) : Option String :=
  if s.startsWith pre then some (s.drop pre.length) else none

/-- `dir.iterdir()` restricted to child directories: the directories directly
below `dir`. -/
def childNames (fs : FileSys) (dir : String) : List String :=
  fs.dirs.filterMap (fun d =>
    match dropPre (dir ++ "/") d with
    | some x => if (x.splitOn "/").length == 1 && !(x == "") then some x else none
    | none => none)

/-- Insertion into a sorted string list (for Python `sorted`). -/
def insertSorted (x : String) : List String → List String
  | [] => [x]
  | y :: ys => if x ≤ y then x :: y :: ys else y :: insertSorted x ys

/-- Python `sorted` on strings. -/
def sortStrings : List String → List String
  | [] => []
  | x :: xs => insertSorted x (sortStrings xs)

/-- `SyncEngine.list_hub_skills`: reads `hub/skills/<name>/SKILL.md` entries
(note: under `hub/skills/`, not where `_sync_skill_to_hub` writes). -/
def list_hub_skills (fs : FileSys) (hub : String) : List String :=
  let skills_dir := pathJoin hub "skills"
  if pathExistsFS fs skills_dir then
    sortStrings ((childNames fs skills_dir).filter
      (fun x => (readFS fs (pathJoin (pathJoin skills_dir x) "SKILL.md")).isSome))
  else []

/-- An enabled adapter as `push_to_agents` uses it: a name and a
`write_skill(name, content)` call reporting success. -/
structure Adapter where
  name : String
  write_skill : String → String → Bool

/-- The hub entries `push_to_agents` iterates: for each child directory of
`hub/skills` holding a `SKILL.md`, its name and that file's contents. -/
def hubSkillEntries (fs : FileSys) (hub : String) : List (String × String) :=
  (childNames fs (pathJoin hub "skills")).filterMap (fun x =>
    (readFS fs (pathJoin (pathJoin (pathJoin hub "skills") x) "SKILL.md")).map
      (fun c => (x, c)))

/-- `SyncEngine.push_to_agents`: hands each hub skill's content to every
enabled adapter; returns the (synced, skipped) tally and the trace of
`(adapter, skill, content)` hand-offs (the `adapter.write_skill` calls). -/
def push_to_agents (fs : FileSys) (hub : String) (adapters : List Adapter) :
    (Nat × Nat) × List (String × String × String) :=
  if pathExistsFS fs (pathJoin hub "skills") then
    adapters.foldl (fun acc ad =>
      (hubSkillEntries fs hub).foldl (fun acc2 e =>
        if ad.write_skill e.1 e.2 then
          ((acc2.1.1 + 1, acc2.1.2), acc2.2 ++ [(ad.name, e.1, e.2)])
        else
          ((acc2.1.1, acc2.1.2 + 1), acc2.2 ++ [(ad.name, e.1, e.2)])) acc)
      ((0, 0), [])
  else ((0, 0), [])

lemma readFS_fsWrite_self (fs : FileSys) (p c : String) :
    readFS (fsWrite fs p c) p = some c := by
  simp [readFS, fsWrite, List.find?]

lemma readFS_fsWrite_other (fs : FileSys) (p c q : String) (h : p ≠ q) :
    readFS (fsWrite fs p c) q = readFS fs q := by
  have hb : (p == q) = false := by simp [h]
  simp [readFS, fsWrite, List.find?, hb]

lemma readFS_fsEnsureDir (fs : FileSys) (d p : String) :
    readFS (fsEnsureDir fs d) p = readFS fs p := by
  unfold fsEnsureDir
  by_cases h : d ∈ fs.dirs <;> simp [h, readFS]

lemma getLast?_append_str (a b : String) (hb : b.data ≠ []) :
    (a ++ b).data.getLast? = b.data.getLast? := by
  rw [String.data_append]
  exact List.getLast?_append_of_ne_nil a.data hb

lemma skillFile_ne_metadataFile (hub name : String) :
    pathJoin (pathJoin hub name) "SKILL.md"
      ≠ pathJoin (pathJoin hub ".skill-hub") (name ++ ".json") := by
  intro he
  have h1 : (pathJoin (pathJoin hub name) "SKILL.md").data.getLast? = some 'd' := by
    unfold pathJoin
    rw [getLast?_append_str _ _ (by decide)]
    decide
  have h2 : (pathJoin (pathJoin hub ".skill-hub") (name ++ ".json")).data.getLast?
      = some 'n' := by
    unfold pathJoin
    rw [getLast?_append_str _ _ ?hne, getLast?_append_str _ _ (by decide)]
    · decide
    · rw [String.data_append]
      simp
  rw [he, h2] at h1
  exact absurd h1 (by decide)

/-- Claim C7: with incremental mode on, an existing hub document with matching
checksum makes `_sync_skill_to_hub` return skipped and leave the file state
unchanged; when the checksum differs or no hub entry exists, the document and
the sidecar record (name, description, source list, checksum, last-sync
timestamp) are written and the call returns synced; the boolean is exactly
what the pull loop tallies as synced/skipped. -/
theorem c7_incremental_hub_sync :
    (∀ (cs : String → String) (hub : String) (fs : FileSys) (skill : Skill)
        (now : Nat) (existing : String),
      readFS fs (pathJoin (pathJoin hub skill.name) "SKILL.md") = some existing →
      skill.checksum = some (cs existing) →
      sync_skill_to_hub cs true hub fs skill now = (false, fs))
    ∧ (∀ (cs : String → String) (hub : String) (fs : FileSys) (skill : Skill)
        (now : Nat),
      (∀ existing,
          readFS fs (pathJoin (pathJoin hub skill.name) "SKILL.md") = some existing →
          skill.checksum ≠ some (cs existing)) →
      sync_skill_to_hub cs true hub fs skill now
          = (true, writeSkillToHub hub fs skill now)
        ∧ readFS (writeSkillToHub hub fs skill now)
            (pathJoin (pathJoin hub skill.name) "SKILL.md") = some skill.content
        ∧ readFS (writeSkillToHub hub fs skill now)
            (pathJoin (pathJoin hub ".skill-hub") (skill.name ++ ".json"))
          = some (renderJson (hubMetadataJson skill now)))
    ∧ (∀ (cs : String → String) (incremental : Bool) (hub : String)
        (fs : FileSys) (skill : Skill) (now : Nat),
      pullSkillsToHub cs incremental hub now [skill] fs =
        ((if (sync_skill_to_hub cs incremental hub fs skill now).1 then (1, 0)
          else (0, 1)),
         (sync_skill_to_hub cs incremental hub fs skill now).2)) := by
  refine ⟨?_, ?_, ?_⟩
  · intro cs hub fs skill now existing hread hck
    simp [sync_skill_to_hub, hread, hck]
  · intro cs hub fs skill now hne
    refine ⟨?_, ?_, ?_⟩
    · cases hr : readFS fs (pathJoin (pathJoin hub skill.name) "SKILL.md") with
      | none => simp [sync_skill_to_hub, hr]
      | some existing =>
        have hd : (some (cs existing) == skill.checksum) = false := by
          simp only [beq_eq_false_iff_ne, ne_eq]
          exact fun h => hne existing hr (h ▸ rfl)
        simp [sync_skill_to_hub, hr, hd]
    · rw [writeSkillToHub]
      rw [readFS_fsWrite_other _ _ _ _ (Ne.symm (skillFile_ne_metadataFile hub skill.name))]
      exact readFS_fsWrite_self _ _ _
    · rw [writeSkillToHub]
      exact readFS_fsWrite_self _ _ _
  · intro cs incremental hub fs skill now
    cases hs : sync_skill_to_hub cs incremental hub fs skill now with
    | mk flag fs' =>
      cases flag <;> simp [pullSkillsToHub, hs]

/-- Witness for C7: a hub that already holds the identical document is
skipped. -/
theorem c7_witness :
    sync_skill_to_hub (fun s => s) true "h"
      ⟨[("h/s/SKILL.md", "c")], ["h", "h/s"]⟩
      ⟨⟨"s", "d", none, none, none⟩, "c", [], some "c", none⟩ 9
      = (false, ⟨[("h/s/SKILL.md", "c")], ["h", "h/s"]⟩) :=
  c7_incremental_hub_sync.1 (fun s => s) "h"
    ⟨[("h/s/SKILL.md", "c")], ["h", "h/s"]⟩
    ⟨⟨"s", "d", none, none, none⟩, "c", [], some "c", none⟩ 9 "c" (by rfl) rfl

/-- Claim C8 fails on the code: `_sync_skill_to_hub` writes the document to
`hub/<name>/SKILL.md`, while `list_hub_skills` and `push_to_agents` read
`hub/skills/<name>/SKILL.md`.  At a concrete pull of one skill into an empty
hub, the write succeeds and the file is present at the writer's location, yet
the hub readers see nothing: `list_hub_skills` is empty and `push_to_agents`
hands no skill to an enabled adapter. -/
theorem c8_hub_roundtrip_bug :
    (sync_skill_to_hub (fun s => s) true "/hub" ⟨[], ["/hub"]⟩
        ⟨⟨"test-skill", "d", none, none, none⟩, "content",
          [⟨"p", "cursor", 1⟩], some "content", none⟩ 5).1 = true
    ∧ readFS (sync_skill_to_hub (fun s => s) true "/hub" ⟨[], ["/hub"]⟩
        ⟨⟨"test-skill", "d", none, none, none⟩, "content",
          [⟨"p", "cursor", 1⟩], some "content", none⟩ 5).2
        "/hub/test-skill/SKILL.md" = some "content"
    ∧ list_hub_skills (sync_skill_to_hub (fun s => s) true "/hub" ⟨[], ["/hub"]⟩
        ⟨⟨"test-skill", "d", none, none, none⟩, "content",
          [⟨"p", "cursor", 1⟩], some "content", none⟩ 5).2 "/hub" = []
    ∧ (push_to_agents (sync_skill_to_hub (fun s => s) true "/hub" ⟨[], ["/hub"]⟩
        ⟨⟨"test-skill", "d", none, none, none⟩, "content",
          [⟨"p", "cursor", 1⟩], some "content", none⟩ 5).2 "/hub"
        [⟨"cursor", fun _ _ => true⟩]).2 = [] := by
  refine ⟨rfl, rfl, rfl, rfl⟩

/-- Claim C9 fails on the code as to the field name: the per-source records
that `export_json` emits use the key `"agent"`, not `"origin"`.  Concretely,
a one-skill registry exports exactly one record whose source element has
keys `path`, `agent`, `discovered_at`. -/
theorem c9_counterexample :
    (SkillRegistry.add_skill (fun s => s) ⟨[], []⟩ ⟨"n", "d", none, none, none⟩
        "body" ⟨"p", "cursor", 5⟩).export_json
      = [Json.obj [("name", .str "n"), ("description", .str "d"),
          ("sources", .arr [Json.obj [("path", .str "p"),
            ("agent", .str "cursor"), ("discovered_at", .str "5")]]),
          ("checksum", .str "body")]]
    ∧ jsonKeys (sourceJson ⟨"p", "cursor", 5⟩) ≠ ["path", "origin", "discovered_at"] := by
  constructor
  · rfl
  · decide

/-- Claim C9 (amended): the export has one record per stored skill, each with
exactly the fields `name`, `description`, `sources`, `checksum`; each sources
element has exactly the fields `path`, `agent` (the spec's `origin`),
`discovered_at`; and the `sources` array of the i-th record is the i-th
skill's source list in discovery order. -/
theorem c9_export_shape (reg : SkillRegistry) :
    (reg.export_json).length = reg.skills.length
    ∧ (∀ j ∈ reg.export_json,
        jsonKeys j = ["name", "description", "sources", "checksum"])
    ∧ (∀ i (hi : i < (reg.export_json).length) (hs : i < reg.skills.length),
        jsonField ((reg.export_json).get ⟨i, hi⟩) "sources" =
          some (.arr (((reg.skills.get ⟨i, hs⟩).2.sources).map sourceJson)))
    ∧ (∀ src : SkillSource,
        jsonKeys (sourceJson src) = ["path", "agent", "discovered_at"]) := by
  refine ⟨?_, ?_, ?_, ?_⟩
  · simp [SkillRegistry.export_json]
  · intro j hj
    simp only [SkillRegistry.export_json, List.mem_map] at hj
    obtain ⟨p, _, rfl⟩ := hj
    simp [jsonKeys]
  · intro i hi hs
    simp [SkillRegistry.export_json, List.get_eq_getElem, List.getElem_map,
      jsonField, List.find?]
  · intro src
    simp [jsonKeys, sourceJson]

/-- Witness for the amended C9 at a concrete one-skill registry. -/
theorem c9_witness :
    jsonField ((SkillRegistry.add_skill (fun s => s) ⟨[], []⟩
          ⟨"n2", "d2", none, none, none⟩ "b2" ⟨"q", "claude", 7⟩).export_json.get
        ⟨0, by decide⟩) "sources" =
      some (.arr ((((SkillRegistry.add_skill (fun s => s) ⟨[], []⟩
          ⟨"n2", "d2", none, none, none⟩ "b2" ⟨"q", "claude", 7⟩).skills.get
        ⟨0, by decide⟩).2.sources).map sourceJson)) :=
  (c9_export_shape (SkillRegistry.add_skill (fun s => s) ⟨[], []⟩
      ⟨"n2", "d2", none, none, none⟩ "b2" ⟨"q", "claude", 7⟩)).2.2.1
    0 (by decide) (by decide)
